import Mathlib

/-!
Verification development for the voice-agent-for-emails repository.

Texts are modelled as lists of characters (JavaScript strings are sequences
of UTF-16 code units; the claims under study do not depend on the encoding
of individual characters). Each definition below is a direct translation of
a function of the repository; the source file and lines are named in the
doc comment of each definition.
-/

set_option autoImplicit false

namespace VoiceAgent

/-- Character class of the JavaScript whitespace escape in regular
expressions and of String.prototype.trim: space, tab, line feed, carriage
return, vertical tab, form feed, plus the common Unicode space characters.
The claims under study only exercise the ASCII members. -/
def isJsWS (c : Char) : Bool :=
  c == ' ' || c == '\t' || c == '\n' || c == '\r' || c == '\u000B' || c == '\u000C' ||
  c == '\u00A0' || c == '\u2028' || c == '\u2029' || c == '\uFEFF'

/-- Models String.prototype.trim: remove leading and trailing whitespace. -/
def jsTrim (s : List Char) : List Char :=
  List.rdropWhile isJsWS (List.dropWhile isJsWS s)

/-- Models String.prototype.substring(a, b): indices are clamped to the
string length and swapped when given in the wrong order. -/
def jsSubstring (s : List Char) (a b : Nat) : List Char :=
  (s.take (max a b)).drop (min a b)

/-- First index at which the regular expression of a sentence terminator
followed by whitespace matches: a character among period, exclamation and
question mark followed by at least one whitespace character
(src/unnamed/part_000, line 425). -/
def findSentenceBreak : List Char → Option Nat
  | a :: b :: rest =>
    if (a == '.' || a == '!' || a == '?') && isJsWS b then some 0
    else (findSentenceBreak (b :: rest)).map (· + 1)
  | _ => none

/-- First index at which two consecutive line feeds occur, the paragraph
break search of src/unnamed/part_000, line 430. -/
def findParagraphBreak : List Char → Option Nat
  | a :: b :: rest =>
    if a == '\n' && b == '\n' then some 0
    else (findParagraphBreak (b :: rest)).map (· + 1)
  | _ => none

/-- First index of a whitespace character, the word boundary search of
src/unnamed/part_000, line 435. -/
def findWsBreak : List Char → Option Nat
  | [] => none
  | a :: rest => if isJsWS a then some 0 else (findWsBreak rest).map (· + 1)

/-- The boundary-adjusted end position of one window of chunkText
(src/unnamed/part_000, lines 415 to 441). The window nominally ends at
start + maxChars; when that position is strictly inside the text, the final
fifth of the window is searched for a sentence break, then a paragraph
break, then a whitespace run, and the cut is moved there. The factor
maxChars * 4 / 5 is the exact value of Math.floor(maxChars * 0.8) for the
sizes the repository uses. -/
def chunkEnd (text : List Char) (start maxChars : Nat) : Nat :=
  let e := start + maxChars
  if e < text.length then
    let searchStart := max (start + maxChars * 4 / 5) start
    let searchEnd := min e text.length
    let searchText := jsSubstring text searchStart searchEnd
    match findSentenceBreak searchText with
    | some i => searchStart + i + 1
    | none =>
      match findParagraphBreak searchText with
      | some i => searchStart + i + 1
      | none =>
        match findWsBreak searchText with
        | some i => searchStart + i + 1
        | none => e
  else e

/-- The while loop of chunkText (src/unnamed/part_000, lines 414 to 447),
written with an explicit iteration budget so that the definition is
structurally recursive and computable by the kernel. Each iteration pushes
the trimmed window and advances the start to max (start + 1) (end -
overlap), so a budget of text.length iterations always suffices; the
budget-exhausted branch is unreachable from chunkText (see the fuel
independence part of the chunking theorems). -/
def chunkSegs (text : List Char) (maxChars overlap : Nat) : Nat → Nat → List (List Char)
  | 0, _ => []
  | fuel + 1, start =>
    if start < text.length then
      let e := chunkEnd text start maxChars
      jsTrim (jsSubstring text start e) ::
        chunkSegs text maxChars overlap fuel (max (start + 1) (e - overlap))
    else []

/-- The sequence of raw (start, end) index windows produced by the loop of
chunkText, before substring extraction, trimming and filtering. Used to
state the coverage property of the chunker. -/
def chunkWindows (text : List Char) (maxChars overlap : Nat) : Nat → Nat → List (Nat × Nat)
  | 0, _ => []
  | fuel + 1, start =>
    if start < text.length then
      let e := chunkEnd text start maxChars
      (start, e) ::
        chunkWindows text maxChars overlap fuel (max (start + 1) (e - overlap))
    else []

/-- Models chunkText (src/unnamed/part_000, lines 403 to 450). The token
budget maxTokens is converted to a character budget of maxTokens * 4, which
is the exact value of Math.floor(maxTokens * 4) for integral maxTokens.
Texts within the budget are returned as a one-element list without any
trimming; longer texts go through the windowing loop and the resulting
fragments are trimmed and the empty ones dropped. -/
def chunkText (text : List Char) (maxTokens overlap : Nat) : List (List Char) :=
  let maxChars := maxTokens * 4
  if text.length ≤ maxChars then [text]
  else (chunkSegs text maxChars overlap text.length 0).filter (fun c => decide (0 < c.length))

/-- The validation pass of generateEmailEmbeddings and
generateAttachmentEmbeddings (src/webapp/lib/services/embeddings.ts, lines
113 to 125 and 212 to 224): any chunk longer than 16000 characters is
re-chunked with a budget of 4000 tokens and an overlap of 100. -/
def validateChunks (chunks : List (List Char)) : List (List Char) :=
  (chunks.map (fun c => if 16000 < c.length then chunkText c 4000 100 else [c])).flatten

/-! ### The retry wrapper of the embedding client
(src/webapp/lib/services/embeddings.ts, lines 18 to 72) -/
/-- The shape of a provider error as inspected by retryWithBackoff. The
fields mirror the properties the source reads from the caught value:
status is the HTTP status, code the provider error code, retryAfterHeader
the integer value of the retry-after response header in seconds when that
header is present and truthy (the source applies parseInt to it and
multiplies by 1000), innerMessage the nested error.message of the payload
and topMessage the message of the thrown error itself. -/
structure ProviderError where
  status : Option Nat
  code : Option String
  retryAfterHeader : Option Nat
  innerMessage : Option String
  topMessage : Option String
deriving DecidableEq

/-- Case-sensitive list containment of a needle at the head of a haystack. -/
def startsWithList : List Char → List Char → Bool
  | [], _ => true
  | _ :: _, [] => false
  | a :: as, b :: bs => a == b && startsWithList as bs

/-- Models String.prototype.includes: the needle occurs contiguously in the
haystack. -/
def strIncludesL (needle : List Char) : List Char → Bool
  | [] => needle.isEmpty
  | c :: rest => startsWithList needle (c :: rest) || strIncludesL needle rest

/-- Lower-casing of a character list, the effect of toLowerCase on the ASCII
texts involved here. -/
def toLowerList (s : List Char) : List Char := s.map Char.toLower

/-- Case-insensitive head match, as performed by a case-insensitive regular
expression literal. -/
def startsWithCI (needle hay : List Char) : Bool :=
  startsWithList (toLowerList needle) (toLowerList hay)

/-- Numeric value of a digit run, the value parseInt gives on a string of
decimal digits. -/
def digitsVal (ds : List Char) : Nat :=
  List.foldl (fun acc c => 10 * acc + (c.toNat - 48)) 0 ds

/-- Match of the unit alternation of the hint regular expression: the unit
is either the string ms or the string second with an optional trailing s,
case-insensitively. The returned Boolean records whether the unit starts
with ms, which is the only property the source reads from the capture. -/
def matchUnitAt (s : List Char) : Option Bool :=
  if startsWithCI "ms".data s then some true
  else if startsWithCI "second".data s then some false
  else none

/-- Attempt to match the hint regular expression at the current position:
the literal try again in followed by a space, one or more digits, optional
whitespace and the unit (src/webapp/lib/services/embeddings.ts, line 42). -/
def tryAgainAt (s : List Char) : Option (Nat × Bool) :=
  if startsWithCI "try again in ".data s then
    let rest := s.drop 13
    let ds := rest.takeWhile (fun c => c.isDigit)
    if ds.isEmpty then none
    else
      match matchUnitAt ((rest.drop ds.length).dropWhile isJsWS) with
      | some u => some (digitsVal ds, u)
      | none => none
  else none

/-- Leftmost match of the hint pattern in the message, the behavior of
String.prototype.match with the try-again regular expression. Returns the
captured number and whether the captured unit starts with ms. -/
def scanTryAgain : List Char → Option (Nat × Bool)
  | [] => none
  | c :: rest =>
    match tryAgainAt (c :: rest) with
    | some r => some r
    | none => scanTryAgain rest

/-- Models the JavaScript expression a or-else b or-else empty string, where
an empty string is falsy. -/
def orTruthy (a : Option String) (b : String) : String :=
  match a with
  | some s => if s.length = 0 then b else s
  | none => b

/-- The error message the hint is parsed from: the nested payload message
when truthy, else the error message, else the empty string
(src/webapp/lib/services/embeddings.ts, line 41). -/
def effectiveMessage (e : ProviderError) : String :=
  orTruthy e.innerMessage (orTruthy e.topMessage "")

/-- The rate-limit test of the source (line 32): status 429 or the
rate-limit error code. -/
def isRateLimitErr (e : ProviderError) : Bool :=
  decide (e.status = some 429) || decide (e.code = some "rate_limit_exceeded")

/-- The token-limit test of the source (line 61): status 400 and a nested
payload message mentioning maximum context length; a missing nested message
makes the optional chain falsy. -/
def isTokenLimitErr (e : ProviderError) : Bool :=
  decide (e.status = some 400) &&
    strIncludesL "maximum context length".data
      (match e.innerMessage with | some s => s.data | none => [])

/-- The backoff delay before clamping (lines 33 to 48): an explicit
retry-after header wins and is interpreted in seconds; otherwise a
try-again hint parsed from the message wins, in milliseconds or seconds
according to its unit; otherwise exponential backoff from the initial
delay. -/
def rawDelay (e : ProviderError) (initialDelay attempt : Nat) : Nat :=
  match e.retryAfterHeader with
  | some s => s * 1000
  | none =>
    match scanTryAgain (effectiveMessage e).data with
    | some (v, isMs) => if isMs then v else v * 1000
    | none => initialDelay * 2 ^ attempt

/-- The clamp of line 51: at least 100 milliseconds, at most 60 seconds. -/
def clampDelay (d : Nat) : Nat := max 100 (min d 60000)

/-- Possible outcomes of retryWithBackoff: a successful value, the distinct
chunk-too-large error thrown at line 63, a rethrown provider error, or the
max-retries-exceeded error of line 71, which is reachable only when
maxRetries is zero. -/
inductive RetryOutcome (α : Type) where
  | ok : α → RetryOutcome α
  | chunkTooLarge : RetryOutcome α
  | raised : ProviderError → RetryOutcome α
  | retriesExhausted : RetryOutcome α
deriving DecidableEq

/-- Observable trace of one retryWithBackoff run: the outcome, the number
of calls made to the wrapped function, and the list of delays slept between
calls, in order. -/
structure RetryTrace (α : Type) where
  outcome : RetryOutcome α
  calls : Nat
  delays : List Nat
deriving DecidableEq

/-- The retry loop of retryWithBackoff (lines 25 to 71). The wrapped
asynchronous function is modelled as a map from the attempt number to its
outcome on that call. The explicit first argument is an iteration budget
making the recursion structural; a budget of maxRetries is exact because
each loop iteration increments the attempt and the loop retries only while
attempt is below maxRetries minus one. -/
def retryStep {α : Type} (fn : Nat → Except ProviderError α)
    (maxRetries initialDelay : Nat) : Nat → Nat → RetryTrace α
  | 0, attempt => ⟨RetryOutcome.retriesExhausted, attempt, []⟩
  | fuel + 1, attempt =>
    if attempt < maxRetries then
      match fn attempt with
      | Except.ok v => ⟨RetryOutcome.ok v, attempt + 1, []⟩
      | Except.error e =>
        if isRateLimitErr e && decide (attempt < maxRetries - 1) then
          let rest := retryStep fn maxRetries initialDelay fuel (attempt + 1)
          ⟨rest.outcome, rest.calls, clampDelay (rawDelay e initialDelay attempt) :: rest.delays⟩
        else if isTokenLimitErr e then ⟨RetryOutcome.chunkTooLarge, attempt + 1, []⟩
        else ⟨RetryOutcome.raised e, attempt + 1, []⟩
    else ⟨RetryOutcome.retriesExhausted, attempt, []⟩

/-- Models retryWithBackoff (src/webapp/lib/services/embeddings.ts, lines
18 to 72); the repository calls it with the default maxRetries of 5 and
initialDelay of 1000. -/
def retryWithBackoff {α : Type} (fn : Nat → Except ProviderError α)
    (maxRetries initialDelay : Nat) : RetryTrace α :=
  retryStep fn maxRetries initialDelay maxRetries 0

/-! ### The embeddings write path
(src/webapp/lib/services/embeddings.ts, lines 81 to 275, and the schema of
src/unnamed/part_000, lines 60 to 110) -/
/-- One row of the email_embeddings or attachment_embeddings table. The
uuid primary key and the created-at column are generated by the store and
carry no information; the schema of src/unnamed/part_000 (lines 60 to 72
and 98 to 110) declares only plain, non-unique indexes on (document id,
chunk index). The embedding vector is modelled as a list of rationals. -/
structure EmbRow where
  docId : String
  rowText : List Char
  chunkIndex : Nat
  vec : List Rat
deriving DecidableEq

/-- The supabase insert on an embeddings table (embeddings.ts, lines 164
and 263): a plain insert appends the rows. Because the primary key is a
fresh uuid and the schema has no unique constraint on (document id, chunk
index), no existing row is replaced. -/
def insertEmbRows (db rows : List EmbRow) : List EmbRow := db ++ rows

/-- The whole-document existence check (embeddings.ts, lines 98 to 107 and
197 to 206): select rows with the given document id with limit one and
test the result for nonemptiness. -/
def hasEmbeddings (db : List EmbRow) (docId : String) : Bool :=
  db.any (fun r => r.docId == docId)

/-- Pairs each chunk with its position. The source processes chunks in
batches of five, computing each chunk index as the batch start plus the
offset inside the batch (embeddings.ts, lines 135 to 161), which is the
global position of the chunk; the batch structure only affects scheduling,
not the produced rows. -/
def withIdx : Nat → List (List Char) → List (Nat × List Char)
  | _, [] => []
  | n, c :: cs => (n, c) :: withIdx (n + 1) cs

/-- Models generateEmailEmbeddings (embeddings.ts, lines 81 to 176) as a
transformer of the email_embeddings table. The embedding provider is the
explicit argument embed; store writes are modelled as succeeding. The
subject and body are joined with a blank line and trimmed; an empty result
or an existing embedding row for the email causes an early return with no
write; otherwise the text is chunked with a budget of 5000 tokens and
overlap 200, the oversized chunks are re-split by the validation pass, and
one row per chunk is inserted. -/
def generateEmailEmbeddings (embed : List Char → List Rat) (db : List EmbRow)
    (emailId : String) (subject body : List Char) : List EmbRow :=
  let fullText := jsTrim (subject ++ '\n' :: '\n' :: body)
  if fullText.length = 0 then db
  else if hasEmbeddings db emailId then db
  else
    insertEmbRows db ((withIdx 0 (validateChunks (chunkText fullText 5000 200))).map
      (fun p => ⟨emailId, p.2, p.1, embed p.2⟩))

/-- Models generateAttachmentEmbeddings (embeddings.ts, lines 184 to 275)
as a transformer of the attachment_embeddings table, in the same way; here
the early return tests the raw text for emptiness after trimming, and the
untrimmed text is chunked. -/
def generateAttachmentEmbeddings (embed : List Char → List Rat) (db : List EmbRow)
    (attachmentId : String) (text : List Char) : List EmbRow :=
  if text.length = 0 || (jsTrim text).length = 0 then db
  else if hasEmbeddings db attachmentId then db
  else
    insertEmbRows db ((withIdx 0 (validateChunks (chunkText text 5000 200))).map
      (fun p => ⟨attachmentId, p.2, p.1, embed p.2⟩))

/-! ### The retrieval engine of the voice-query route
(src/webapp/app/api/voice-query/route.ts, lines 148 to 231) -/
/-- One row of the emails table as read by the route: the id, the grant it
belongs to, and its date as epoch milliseconds, the value of
Date.prototype.getTime used by the ranking comparator. The other columns
play no role in branching or ranking. -/
structure DbEmail where
  id : String
  grantId : String
  dateMs : Int
deriving DecidableEq

/-- One row returned by the match_email_embeddings search function: the
matched email id and the cosine similarity. The chunk text and index play
no role in branching or ranking. Similarities are modelled as rationals. -/
structure EmailMatch where
  emailId : String
  similarity : Rat
deriving DecidableEq

/-- One element of the emails array the route builds before ranking: the
email row, its matching chunks, and the derived maxSimilarity. -/
structure SelectedEmail where
  email : DbEmail
  matchingChunks : List EmailMatch
  maxSimilarity : Rat
deriving DecidableEq

/-- The ranking comparator of route.ts, lines 199 to 204: when the two
best-chunk similarities differ by less than 0.1, compare by descending
date, else by descending similarity. -/
def emailCmp (a b : SelectedEmail) : Rat :=
  if |a.maxSimilarity - b.maxSimilarity| < 1/10 then
    ((b.email.dateMs - a.email.dateMs : Int) : Rat)
  else b.maxSimilarity - a.maxSimilarity

/-- Array.prototype.sort with the comparator emailCmp applied to a
two-element array, the configuration of the ranking test of the
specification: a stable sort swaps the pair exactly when the comparator is
positive on it. -/
def sortTwoEmails (x y : SelectedEmail) : List SelectedEmail :=
  if 0 < emailCmp x y then [y, x] else [x, y]

/-- The fixed recency keyword list of route.ts, line 149. -/
def timeKeywords : List String :=
  ["last", "recent", "latest", "newest", "most recent", "latest email",
   "last email", "recent email"]

/-- The time-based-query test of route.ts, lines 150 to 152: the lowercased
transcript contains some lowercased keyword. -/
def isTimeBasedQuery (transcript : String) : Bool :=
  timeKeywords.any (fun k => strIncludesL (toLowerList k.data) (toLowerList transcript.data))

/-- Deduplication keeping first occurrences, the effect of building a Set
from the matched email ids and spreading it back into an array (route.ts,
line 155). -/
def dedupFirstAux : List String → List String → List String
  | _, [] => []
  | seen, x :: xs =>
    if seen.contains x then dedupFirstAux seen xs
    else x :: dedupFirstAux (x :: seen) xs

/-- Deduplication of a list of ids, keeping first occurrences. -/
def dedupFirst (l : List String) : List String := dedupFirstAux [] l

/-- Insertion of an email into a list sorted by descending date, used to
model the order-by-date-descending read of the store. -/
def insertByDateDesc (e : DbEmail) : List DbEmail → List DbEmail
  | [] => [e]
  | x :: xs => if x.dateMs < e.dateMs then e :: x :: xs else x :: insertByDateDesc e xs

/-- Sort by descending date, the order-by clause of the recent-emails read
(route.ts, line 167); the store leaves ties in unspecified order, the model
keeps them in list order. -/
def sortByDateDesc : List DbEmail → List DbEmail
  | [] => []
  | x :: xs => insertByDateDesc x (sortByDateDesc xs)

/-- Insertion of a match into a list sorted by descending similarity. -/
def insertBySimDesc (m : EmailMatch) : List EmailMatch → List EmailMatch
  | [] => [m]
  | x :: xs => if x.similarity < m.similarity then m :: x :: xs else x :: insertBySimDesc m xs

/-- Sort matches by descending similarity, the per-email chunk sort of
route.ts, line 188. -/
def sortBySimDesc : List EmailMatch → List EmailMatch
  | [] => []
  | x :: xs => insertBySimDesc x (sortBySimDesc xs)

/-- The email-selection stage of the route (route.ts, lines 148 to 205,
excluding the final in-place sort of lines 199 to 204, which only permutes
the produced array and is modelled by emailCmp and sortTwoEmails). The
returned Boolean records whether the recent-emails branch was taken: it is
taken when the deduplicated matched email ids are empty, or the query is
time-based and fewer than three distinct emails matched. In that branch the
most recent emails of the grant are fetched, five for a time-based query
and three otherwise, each given an empty chunk list and a synthetic
similarity of 0.9 for a time-based query and 0.8 otherwise. In the other
branch the matched emails of the grant are fetched and each is given its
top three chunks by similarity and their best similarity, zero when the
email has no chunks. -/
def selectEmails (dbEmails : List DbEmail) (transcript grantId : String)
    (ms : List EmailMatch) : Bool × List SelectedEmail :=
  let tb := isTimeBasedQuery transcript
  let emailIds := dedupFirst (ms.map (fun m => m.emailId))
  if emailIds.length == 0 || (tb && decide (emailIds.length < 3)) then
    let recent := (sortByDateDesc (dbEmails.filter (fun e => e.grantId == grantId))).take
      (if tb then 5 else 3)
    (true, recent.map (fun e => ⟨e, [], if tb then 9/10 else 8/10⟩))
  else
    let fetched := dbEmails.filter (fun e => emailIds.contains e.id && e.grantId == grantId)
    (false, fetched.map (fun e =>
      let mc := (sortBySimDesc (ms.filter (fun m => m.emailId == e.id))).take 3
      ⟨e, mc, match mc.head? with | some m => m.similarity | none => 0⟩))

/-! ### The ingestion fan-out of the crawl route
(src/unnamed/part_004, lines 128 to 460) -/
/-- One attachment of a raw message together with the collaborator outcome
of its byte download: downloadOk records whether the fetch of the bytes
from the source provider responds ok (part_004, lines 250 to 260). -/
structure MAttachment where
  attId : String
  downloadOk : Bool
deriving DecidableEq

/-- One raw message together with the collaborator outcome of its database
upsert: dbOk records whether the email upsert succeeds (part_004, lines
182 to 189); a failed upsert makes the processor return null before any
attachment work. -/
structure MMessage where
  msgId : String
  dbOk : Bool
  atts : List MAttachment
deriving DecidableEq

/-- Iteration core of the batching of processInParallel, with an explicit
budget making the recursion structural; a budget of the list length is
exact since every step consumes at least one item. -/
def batchesOfAux {α : Type} : Nat → Nat → List α → List (List α)
  | 0, _, _ => []
  | _ + 1, _, [] => []
  | fuel + 1, c, x :: xs => (x :: xs.take (c - 1)) :: batchesOfAux fuel c (xs.drop (c - 1))

/-- The slices of size c the loop of processInParallel walks through
(part_004, lines 135 to 146). -/
def batchesOf {α : Type} (c : Nat) (l : List α) : List (List α) :=
  batchesOfAux l.length c l

/-- Models processInParallel (part_004, lines 128 to 149): the items are
processed in slices of size c with Promise.allSettled, and only the
fulfilled results are kept, in order; rejected promises are dropped. The
model serializes the in-batch concurrency, which is observationally
equivalent for the pure processors modelled here. -/
def processInParallel {α β : Type} (items : List α) (proc : α → Except Unit β)
    (c : Nat) : List β :=
  ((batchesOf c items).map (fun b => b.filterMap (fun it => (proc it).toOption))).flatten

/-- Models the per-attachment processor (part_004, lines 246 to 385): a
failed byte download logs and returns null before any write, so the failed
attachment is neither uploaded nor recorded in the attachments table; a
successful download uploads the bytes (an upload failure after the retries
is logged and does not prevent the metadata upsert) and upserts the
attachment row, fulfilling with the saved attachment. The surrounding
try/catch turns any throw into null, so the promise always fulfills. Store
writes are modelled as succeeding; the returned id stands for the upserted
attachment row. -/
def processAttachment (a : MAttachment) : Except Unit (Option String) :=
  Except.ok (if a.downloadOk then some a.attId else none)

/-- Models the per-message processor (part_004, lines 157 to 429): a failed
email upsert returns null before recipients or attachments are processed;
otherwise the attachments are processed with concurrency 5, the non-null
saved attachments are kept, and the processor fulfills with the email
response carrying the message id and the saved attachment ids. -/
def processMessage (m : MMessage) : Except Unit (Option (String × List String)) :=
  if m.dbOk then
    Except.ok (some (m.msgId,
      (processInParallel m.atts processAttachment 5).filterMap id))
  else Except.ok none

/-- The observable outcome of one crawl run on its success path. -/
structure CrawlResult where
  savedCount : Nat
  jobStatus : String
  errorMessage : Option String
  storedAttachmentIds : List String
deriving DecidableEq

/-- Models the success path of the crawl POST handler (part_004, lines 151
to 460) after the message page has been fetched: the messages are processed
with concurrency 10, the null results are filtered out, savedCount is the
number of surviving messages, and the terminal job update sets status
completed with emails_crawled equal to savedCount and no error message.
storedAttachmentIds collects the attachment rows upserted during the run. -/
def runCrawl (messages : List MMessage) : CrawlResult :=
  let emailResults := processInParallel messages processMessage 10
  let emails := emailResults.filterMap id
  ⟨emails.length, "completed", none, (emails.map (fun e => e.2)).flatten⟩

/-! ### Elementary lemmas about the text utilities -/
theorem jsSubstring_length (s : List Char) (a b : Nat) :
    (jsSubstring s a b).length = min (max a b) s.length - min a b := by
  simp [jsSubstring]

theorem jsTrim_length_le (s : List Char) : (jsTrim s).length ≤ s.length := by
  have h1 : (List.dropWhile isJsWS s).length ≤ s.length :=
    (List.dropWhile_suffix isJsWS).sublist.length_le
  have h2 : (List.rdropWhile isJsWS (List.dropWhile isJsWS s)).length ≤
      (List.dropWhile isJsWS s).length := by
    have h0 : List.dropWhile isJsWS (List.dropWhile isJsWS s).reverse <:+
        (List.dropWhile isJsWS s).reverse := List.dropWhile_suffix isJsWS
    have h1 := h0.sublist.length_le
    unfold List.rdropWhile
    simpa using h1
  exact le_trans h2 h1

theorem dropWhile_rdropWhile_self (p : Char → Bool) (s : List Char) :
    List.dropWhile p (List.rdropWhile p (List.dropWhile p s)) =
      List.rdropWhile p (List.dropWhile p s) := by
  have hpre : List.rdropWhile p (List.dropWhile p s) <+: List.dropWhile p s := by
    have h1 : List.dropWhile p (List.dropWhile p s).reverse <:+
        (List.dropWhile p s).reverse := List.dropWhile_suffix p
    have h2 := h1.reverse
    simpa [List.rdropWhile] using h2
  obtain ⟨r, hr⟩ := hpre
  cases hL : List.rdropWhile p (List.dropWhile p s) with
  | nil => simp
  | cons y t =>
    have hdly : List.dropWhile p s = y :: (t ++ r) := by
      rw [← hr, hL]; simp
    have h3 := List.head?_dropWhile_not p s
    rw [hdly] at h3
    simp at h3
    rw [List.dropWhile_cons_of_neg (by simp [h3])]

theorem jsTrim_idem (s : List Char) : jsTrim (jsTrim s) = jsTrim s := by
  unfold jsTrim
  rw [dropWhile_rdropWhile_self]
  exact List.rdropWhile_idempotent _ _

theorem findSentenceBreak_lt :
    ∀ (s : List Char) (i : Nat), findSentenceBreak s = some i → i + 1 < s.length := by
  intro s
  induction s with
  | nil => intro i h; simp [findSentenceBreak] at h
  | cons a t ih =>
    cases t with
    | nil => intro i h; simp [findSentenceBreak] at h
    | cons b rest =>
      intro i h
      rw [findSentenceBreak] at h
      split at h
      · cases h; simp
      · cases hm : findSentenceBreak (b :: rest) with
        | none => rw [hm] at h; simp at h
        | some j =>
          rw [hm] at h
          simp at h
          have hj := ih j hm
          simp at hj ⊢
          omega

theorem findParagraphBreak_lt :
    ∀ (s : List Char) (i : Nat), findParagraphBreak s = some i → i + 1 < s.length := by
  intro s
  induction s with
  | nil => intro i h; simp [findParagraphBreak] at h
  | cons a t ih =>
    cases t with
    | nil => intro i h; simp [findParagraphBreak] at h
    | cons b rest =>
      intro i h
      rw [findParagraphBreak] at h
      split at h
      · cases h; simp
      · cases hm : findParagraphBreak (b :: rest) with
        | none => rw [hm] at h; simp at h
        | some j =>
          rw [hm] at h
          simp at h
          have hj := ih j hm
          simp at hj ⊢
          omega

theorem findWsBreak_lt :
    ∀ (s : List Char) (i : Nat), findWsBreak s = some i → i < s.length := by
  intro s
  induction s with
  | nil => intro i h; simp [findWsBreak] at h
  | cons a t ih =>
    intro i h
    rw [findWsBreak] at h
    split at h
    · cases h; simp
    · cases hm : findWsBreak t with
      | none => rw [hm] at h; simp at h
      | some j =>
        rw [hm] at h
        simp at h
        have hj := ih j hm
        simp only [List.length_cons]
        omega

/-! ### Window bounds of the chunker -/
theorem chunkEnd_ge (text : List Char) (start maxChars : Nat) :
    start ≤ chunkEnd text start maxChars := by
  have hmax : start ≤ max (start + maxChars * 4 / 5) start := Nat.le_max_right _ _
  unfold chunkEnd
  dsimp only
  split
  · split
    · omega
    · split
      · omega
      · split
        · omega
        · omega
  · omega

theorem chunkEnd_ge_succ (text : List Char) (start maxChars : Nat) (hmc : 0 < maxChars) :
    start + 1 ≤ chunkEnd text start maxChars := by
  have hmax : start ≤ max (start + maxChars * 4 / 5) start := Nat.le_max_right _ _
  unfold chunkEnd
  dsimp only
  split
  · split
    · omega
    · split
      · omega
      · split
        · omega
        · omega
  · omega

theorem chunkEnd_le (text : List Char) (start maxChars : Nat) :
    chunkEnd text start maxChars ≤ start + maxChars := by
  have h45 : maxChars * 4 / 5 ≤ maxChars := by omega
  have hss : max (start + maxChars * 4 / 5) start = start + maxChars * 4 / 5 :=
    max_eq_left (Nat.le_add_right _ _)
  unfold chunkEnd
  dsimp only
  split
  case isTrue hlt =>
    rw [hss]
    have hlen := jsSubstring_length text (start + maxChars * 4 / 5)
      (min (start + maxChars) text.length)
    split
    case h_1 i heq =>
      have hi := findSentenceBreak_lt _ _ heq
      rw [hlen] at hi
      omega
    case h_2 heq0 =>
      split
      case h_1 i heq =>
        have hi := findParagraphBreak_lt _ _ heq
        rw [hlen] at hi
        omega
      case h_2 heq1 =>
        split
        case h_1 i heq =>
          have hi := findWsBreak_lt _ _ heq
          rw [hlen] at hi
          omega
        case h_2 => omega
  case isFalse => omega

/-! ### Lemmas about the chunking loop -/
theorem chunkSegs_fuel (text : List Char) (maxChars overlap : Nat) :
    ∀ (f1 start f2 : Nat), text.length - start ≤ f1 → text.length - start ≤ f2 →
      chunkSegs text maxChars overlap f1 start = chunkSegs text maxChars overlap f2 start := by
  intro f1
  induction f1 with
  | zero =>
    intro start f2 h1 _
    have hs : ¬ start < text.length := by omega
    cases f2 with
    | zero => rfl
    | succ m => simp [chunkSegs, hs]
  | succ n ih =>
    intro start f2 h1 h2
    by_cases hs : start < text.length
    · cases f2 with
      | zero => omega
      | succ m =>
        simp only [chunkSegs, if_pos hs]
        have hnext : start + 1 ≤ max (start + 1) (chunkEnd text start maxChars - overlap) :=
          Nat.le_max_left _ _
        rw [ih (max (start + 1) (chunkEnd text start maxChars - overlap)) m
          (by omega) (by omega)]
    · cases f2 with
      | zero => simp [chunkSegs, hs]
      | succ m => simp [chunkSegs, hs]

theorem chunkSegs_eq_windows (text : List Char) (maxChars overlap : Nat) :
    ∀ (fuel start : Nat), chunkSegs text maxChars overlap fuel start =
      (chunkWindows text maxChars overlap fuel start).map
        (fun w => jsTrim (jsSubstring text w.1 w.2)) := by
  intro fuel
  induction fuel with
  | zero => intro start; rfl
  | succ n ih =>
    intro start
    by_cases hs : start < text.length <;>
      simp [chunkSegs, chunkWindows, hs, ih]

theorem chunkSegs_trimmed (text : List Char) (maxChars overlap : Nat) :
    ∀ (fuel start : Nat), ∀ c ∈ chunkSegs text maxChars overlap fuel start, jsTrim c = c := by
  intro fuel
  induction fuel with
  | zero => intro start c hc; simp [chunkSegs] at hc
  | succ n ih =>
    intro start c hc
    by_cases hs : start < text.length
    · simp only [chunkSegs, if_pos hs] at hc
      rcases List.mem_cons.1 hc with h1 | h2
      · rw [h1]; exact jsTrim_idem _
      · exact ih _ _ h2
    · simp [chunkSegs, hs] at hc

theorem chunkSegs_length_le (text : List Char) (maxChars overlap : Nat) :
    ∀ (fuel start : Nat), ∀ c ∈ chunkSegs text maxChars overlap fuel start,
      c.length ≤ maxChars := by
  intro fuel
  induction fuel with
  | zero => intro start c hc; simp [chunkSegs] at hc
  | succ n ih =>
    intro start c hc
    by_cases hs : start < text.length
    · simp only [chunkSegs, if_pos hs] at hc
      rcases List.mem_cons.1 hc with h1 | h2
      · have hge := chunkEnd_ge text start maxChars
        have hle := chunkEnd_le text start maxChars
        have hsub := jsSubstring_length text start (chunkEnd text start maxChars)
        have htr := jsTrim_length_le (jsSubstring text start (chunkEnd text start maxChars))
        rw [h1]
        omega
      · exact ih _ _ h2
    · simp [chunkSegs, hs] at hc

theorem chunkWindows_cover (text : List Char) (maxChars overlap : Nat)
    (hmc : 0 < maxChars) :
    ∀ (fuel start k : Nat), text.length - start ≤ fuel → start ≤ k → k < text.length →
      ∃ w ∈ chunkWindows text maxChars overlap fuel start, w.1 ≤ k ∧ k < w.2 := by
  intro fuel
  induction fuel with
  | zero => intro start k h1 h2 h3; exact absurd h3 (by omega)
  | succ n ih =>
    intro start k h1 h2 h3
    have hs : start < text.length := lt_of_le_of_lt h2 h3
    simp only [chunkWindows, if_pos hs]
    by_cases hk : k < chunkEnd text start maxChars
    · exact ⟨(start, chunkEnd text start maxChars), List.mem_cons_self _ _, h2, hk⟩
    · have h4 := chunkEnd_ge_succ text start maxChars hmc
      obtain ⟨w, hw, hw2⟩ := ih (max (start + 1) (chunkEnd text start maxChars - overlap)) k
        (by omega) (by omega) h3
      exact ⟨w, List.mem_cons_of_mem _ hw, hw2⟩

/-! ### Claim C4: termination, no degenerate chunks, coverage -/
/-- Claim C4, counterexample. The claim states that for every input text and
all parameters with overlap smaller than the window size, chunkText returns
no empty or whitespace-only chunks. This is false: when the text fits in a
single window, the source returns the list with the raw text, skipping both
the trim and the emptiness filter, so a whitespace-only input yields a
whitespace-only chunk and an empty input yields an empty chunk. Shown here
at overlap 200 and window size 32000. -/
theorem c4_counterexample :
    chunkText [' '] 8000 200 = [[' ']] ∧ jsTrim [' '] = [] ∧
      chunkText [] 8000 200 = [[]] := by
  refine ⟨by decide, by decide, by decide⟩

/-- Claim C4, amended. For every input text and parameters with a positive
token budget: the chunking loop terminates within text.length iterations
(its result does not change when the iteration budget is enlarged); a text
within the window size is returned unchanged as a single chunk; and for a
text exceeding the window size every returned chunk is nonempty and equal
to its own trim (so in particular not whitespace-only), the returned chunks
are exactly the trimmed window substrings with empty fragments dropped, and
the raw windows cover every character position of the source text, with
consecutive windows overlapping only at the boundaries. The original
claim's statement that no empty or whitespace-only chunk is ever produced
holds only in the multi-window case. -/
theorem c4_chunking_amended (text : List Char) (maxTokens overlap : Nat)
    (hmt : 1 ≤ maxTokens) :
    (∀ extra : Nat, chunkSegs text (maxTokens * 4) overlap (text.length + extra) 0 =
        chunkSegs text (maxTokens * 4) overlap text.length 0) ∧
    (text.length ≤ maxTokens * 4 → chunkText text maxTokens overlap = [text]) ∧
    (maxTokens * 4 < text.length →
      (∀ c ∈ chunkText text maxTokens overlap, 0 < c.length ∧ jsTrim c = c) ∧
      chunkText text maxTokens overlap =
        ((chunkWindows text (maxTokens * 4) overlap text.length 0).map
          (fun w => jsTrim (jsSubstring text w.1 w.2))).filter
            (fun c => decide (0 < c.length)) ∧
      (∀ k, k < text.length → ∃ w ∈ chunkWindows text (maxTokens * 4) overlap
        text.length 0, w.1 ≤ k ∧ k < w.2)) := by
  refine ⟨?_, ?_, ?_⟩
  · intro extra
    exact chunkSegs_fuel text (maxTokens * 4) overlap _ 0 _ (by omega) (by omega)
  · intro hle
    simp [chunkText, hle]
  · intro hgt
    have hneg : ¬ (text.length ≤ maxTokens * 4) := by omega
    refine ⟨?_, ?_, ?_⟩
    · intro c hc
      simp only [chunkText, if_neg hneg] at hc
      have hmem : c ∈ chunkSegs text (maxTokens * 4) overlap text.length 0 :=
        (List.mem_filter.1 hc).1
      have hpos : 0 < c.length := by
        have := (List.mem_filter.1 hc).2
        simpa using this
      exact ⟨hpos, chunkSegs_trimmed text (maxTokens * 4) overlap _ 0 c hmem⟩
    · simp only [chunkText, if_neg hneg]
      rw [chunkSegs_eq_windows]
    · intro k hk
      exact chunkWindows_cover text (maxTokens * 4) overlap (by omega) text.length 0 k
        (by omega) (by omega) hk

/-- Claim C4, witness: the amended theorem applied to a five-character text
with a one-token window (window size 4) and overlap 0. -/
theorem c4_witness :
    1 ≤ 1 ∧
    ((∀ extra : Nat, chunkSegs "abcde".data 4 0 ("abcde".data.length + extra) 0 =
        chunkSegs "abcde".data 4 0 "abcde".data.length 0) ∧
    ("abcde".data.length ≤ 1 * 4 → chunkText "abcde".data 1 0 = ["abcde".data]) ∧
    (1 * 4 < "abcde".data.length →
      (∀ c ∈ chunkText "abcde".data 1 0, 0 < c.length ∧ jsTrim c = c) ∧
      chunkText "abcde".data 1 0 =
        ((chunkWindows "abcde".data 4 0 "abcde".data.length 0).map
          (fun w => jsTrim (jsSubstring "abcde".data w.1 w.2))).filter
            (fun c => decide (0 < c.length)) ∧
      (∀ k, k < "abcde".data.length → ∃ w ∈ chunkWindows "abcde".data 4 0
        "abcde".data.length 0, w.1 ≤ k ∧ k < w.2))) :=
  ⟨by decide, by simpa using c4_chunking_amended "abcde".data 1 0 (by decide)⟩

/-! ### Claim C5: small texts are returned unchanged, idempotence -/
/-- Claim C5, counterexample. The claim states that a text within the window
size is returned as a one-element list after trimming. The source returns
the raw text without trimming in this case, so an input with leading
whitespace comes back with the whitespace intact. -/
theorem c5_counterexample :
    chunkText [' ', 'a'] 8000 200 = [[' ', 'a']] ∧
      jsTrim [' ', 'a'] ≠ [' ', 'a'] := by
  refine ⟨by decide, by decide⟩

/-- Claim C5, amended. If the text length is at most maxTokens * 4, chunkText
returns the one-element list with the text unchanged, with no trimming
applied. Consequently re-chunking any fragment already below the size limit
returns it unchanged, so chunking is idempotent on its own outputs. -/
theorem c5_small_text_amended :
    (∀ (text : List Char) (maxTokens overlap : Nat), text.length ≤ maxTokens * 4 →
      chunkText text maxTokens overlap = [text]) ∧
    (∀ (text : List Char) (mT ov : Nat), ∀ c ∈ chunkText text mT ov,
      ∀ (mT2 ov2 : Nat), c.length ≤ mT2 * 4 → chunkText c mT2 ov2 = [c]) := by
  constructor
  · intro text maxTokens overlap hle
    simp [chunkText, hle]
  · intro text mT ov c _ mT2 ov2 hle
    simp [chunkText, hle]

/-- Claim C5, witness: a two-character fragment with a window size of four
characters is returned unchanged, and re-chunking the chunk of a chunking
run returns it unchanged. -/
theorem c5_witness :
    (['a', 'b'] : List Char).length ≤ 1 * 4 ∧ chunkText ['a', 'b'] 1 0 = [['a', 'b']] ∧
    (['a', 'b', 'c', 'd'] ∈ chunkText "abcde".data 1 0 ∧
      chunkText ['a', 'b', 'c', 'd'] 1 5 = [['a', 'b', 'c', 'd']]) :=
  ⟨by decide, c5_small_text_amended.1 ['a', 'b'] 1 0 (by decide),
    by decide, c5_small_text_amended.2 "abcde".data 1 0 ['a', 'b', 'c', 'd']
      (by decide) 1 5 (by decide)⟩

/-! ### Claim C10: chunk size bound and the validation pass -/
/-- Claim C10. Every string returned by chunkText has length at most
maxTokens * 4 characters, because the boundary search and the trimming can
only shorten a window; consequently the validation pass of embedding
generation, which re-chunks any chunk longer than 16000 characters with a
budget of 4000 tokens, hands only chunks of at most 16000 characters to the
embedding provider. -/
theorem c10_chunk_size_bound :
    (∀ (text : List Char) (maxTokens overlap : Nat),
      ∀ c ∈ chunkText text maxTokens overlap, c.length ≤ maxTokens * 4) ∧
    (∀ (chunks : List (List Char)), ∀ c ∈ validateChunks chunks, c.length ≤ 16000) := by
  have hmain : ∀ (text : List Char) (maxTokens overlap : Nat),
      ∀ c ∈ chunkText text maxTokens overlap, c.length ≤ maxTokens * 4 := by
    intro text maxTokens overlap c hc
    by_cases hle : text.length ≤ maxTokens * 4
    · simp only [chunkText, if_pos hle, List.mem_singleton] at hc
      subst hc
      omega
    · simp only [chunkText, if_neg hle] at hc
      exact chunkSegs_length_le text (maxTokens * 4) overlap _ 0 c
        (List.mem_filter.1 hc).1
  refine ⟨hmain, ?_⟩
  intro chunks c hc
  simp only [validateChunks, List.mem_flatten, List.mem_map] at hc
  obtain ⟨l, ⟨d, _, hd⟩, hcl⟩ := hc
  by_cases h16 : 16000 < d.length
  · rw [← hd, if_pos h16] at hcl
    have := hmain d 4000 100 c hcl
    omega
  · rw [← hd, if_neg h16] at hcl
    simp only [List.mem_singleton] at hcl
    subst hcl
    omega

/-- Claim C10, witness: a concrete chunk produced by chunkText respects the
window bound, and a concrete chunk of the validation pass respects the
16000-character cap. -/
theorem c10_witness :
    (['a', 'b', 'c', 'd'] ∈ chunkText "abcde".data 1 0 ∧
      (['a', 'b', 'c', 'd'] : List Char).length ≤ 1 * 4) ∧
    (['a', 'b'] ∈ validateChunks [['a', 'b']] ∧
      (['a', 'b'] : List Char).length ≤ 16000) :=
  ⟨⟨by decide, c10_chunk_size_bound.1 "abcde".data 1 0 ['a', 'b', 'c', 'd'] (by decide)⟩,
    ⟨by decide, c10_chunk_size_bound.2 [['a', 'b']] ['a', 'b'] (by decide)⟩⟩

/-! ### Lemmas about the retry loop -/
theorem retryStep_allFail (α : Type) (fn : Nat → Except ProviderError α)
    (e : Nat → ProviderError) (mR d : Nat)
    (hfail : ∀ i, fn i = Except.error (e i))
    (hrl : ∀ i, isRateLimitErr (e i) = true)
    (htok : isTokenLimitErr (e (mR - 1)) = false) :
    ∀ (fuel attempt : Nat), attempt + fuel = mR → attempt < mR →
      retryStep fn mR d fuel attempt =
        ⟨RetryOutcome.raised (e (mR - 1)), mR,
          (List.range' attempt (mR - 1 - attempt)).map
            (fun i => clampDelay (rawDelay (e i) d i))⟩ := by
  intro fuel
  induction fuel with
  | zero => intro attempt h1 h2; omega
  | succ n ih =>
    intro attempt h1 h2
    simp only [retryStep, if_pos h2, hfail attempt]
    by_cases hlast : attempt < mR - 1
    · rw [if_pos (by simp [hrl attempt, hlast])]
      rw [ih (attempt + 1) (by omega) (by omega)]
      have hrange : mR - 1 - attempt = (mR - 1 - (attempt + 1)) + 1 := by omega
      rw [hrange, List.range'_succ]
      simp
    · have hatt : attempt = mR - 1 := by omega
      rw [if_neg (by simp [hlast])]
      rw [if_neg (by simp [hatt ▸ htok])]
      have hrange : mR - 1 - attempt = 0 := by omega
      simp [hatt, hrange]
      omega

/-! ### Claim C2: the backoff policy on persistent rate-limit errors -/
/-- Claim C2. For every call wrapped by retryWithBackoff that keeps failing
with a rate-limit error: the wrapped function is called exactly maxRetries
times, the final rate-limit error is surfaced, and the delay slept before
retry number i is the clamp to the interval from 100 milliseconds to 60
seconds of the backoff delay for the error of attempt i. The backoff delay
prefers an explicit retry-after duration from the provider, interpreted in
seconds, else a parsed try-again hint from the error payload in the unit
the hint names, else exponential backoff initialDelay times 2 to the
attempt; in particular a retry-after header worth 2 seconds, that is 2000
milliseconds, yields a delay of exactly 2000 milliseconds. -/
theorem c2_retry_policy (α : Type) (fn : Nat → Except ProviderError α)
    (e : Nat → ProviderError) (mR d : Nat) (hmr : 1 ≤ mR)
    (hfail : ∀ i, fn i = Except.error (e i))
    (hrl : ∀ i, isRateLimitErr (e i) = true)
    (htok : isTokenLimitErr (e (mR - 1)) = false) :
    (retryWithBackoff fn mR d).calls = mR ∧
    (retryWithBackoff fn mR d).outcome = RetryOutcome.raised (e (mR - 1)) ∧
    (retryWithBackoff fn mR d).delays =
      (List.range (mR - 1)).map (fun i => clampDelay (rawDelay (e i) d i)) ∧
    (∀ (err : ProviderError) (dd a s : Nat), err.retryAfterHeader = some s →
      clampDelay (rawDelay err dd a) = max 100 (min (s * 1000) 60000)) ∧
    (∀ (err : ProviderError) (dd a v : Nat) (u : Bool), err.retryAfterHeader = none →
      scanTryAgain (effectiveMessage err).data = some (v, u) →
      clampDelay (rawDelay err dd a) = max 100 (min (if u then v else v * 1000) 60000)) ∧
    (∀ (err : ProviderError) (dd a : Nat), err.retryAfterHeader = none →
      scanTryAgain (effectiveMessage err).data = none →
      clampDelay (rawDelay err dd a) = max 100 (min (dd * 2 ^ a) 60000)) ∧
    (∀ dd : Nat, 100 ≤ clampDelay dd ∧ clampDelay dd ≤ 60000) ∧
    (∀ (err : ProviderError) (dd a : Nat), err.retryAfterHeader = some 2 →
      clampDelay (rawDelay err dd a) = 2000) := by
  have hmain := retryStep_allFail α fn e mR d hfail hrl htok mR 0 (by omega) (by omega)
  refine ⟨?_, ?_, ?_, ?_, ?_, ?_, ?_, ?_⟩
  · rw [retryWithBackoff, hmain]
  · rw [retryWithBackoff, hmain]
  · rw [retryWithBackoff, hmain]
    simp [List.range_eq_range']
  · intro err dd a s hs
    simp [clampDelay, rawDelay, hs]
  · intro err dd a v u hnone hscan
    simp [clampDelay, rawDelay, hnone, hscan]
  · intro err dd a hnone hscan
    simp [clampDelay, rawDelay, hnone, hscan]
  · intro dd
    constructor
    · exact Nat.le_max_left _ _
    · simp only [clampDelay]
      omega
  · intro err dd a hs
    simp [clampDelay, rawDelay, hs]

/-- Claim C2, witness: a provider that always fails with a rate-limit error
carrying a retry-after header of 2 seconds, run at the default maxRetries 5
and initialDelay 1000. -/
theorem c2_witness :
    (retryWithBackoff
      (fun _ => Except.error (⟨some 429, none, some 2, none, none⟩ : ProviderError))
      5 1000 : RetryTrace Unit).calls = 5 ∧
    (retryWithBackoff
      (fun _ => Except.error (⟨some 429, none, some 2, none, none⟩ : ProviderError))
      5 1000 : RetryTrace Unit).outcome =
        RetryOutcome.raised ⟨some 429, none, some 2, none, none⟩ ∧
    (retryWithBackoff
      (fun _ => Except.error (⟨some 429, none, some 2, none, none⟩ : ProviderError))
      5 1000 : RetryTrace Unit).delays = [2000, 2000, 2000, 2000] := by
  have h := c2_retry_policy Unit
    (fun _ => Except.error (⟨some 429, none, some 2, none, none⟩ : ProviderError))
    (fun _ => ⟨some 429, none, some 2, none, none⟩) 5 1000 (by decide)
    (fun _ => rfl) (fun _ => rfl) (by decide)
  refine ⟨h.1, h.2.1, ?_⟩
  rw [h.2.2.1]
  decide

/-! ### Claim C3: context-length errors are never retried -/
/-- Claim C3. A context-length-exceeded error from the embedding provider,
that is an error with status 400 whose payload message mentions maximum
context length and which is not simultaneously marked as a rate-limit
error, is never retried: the provider is called exactly once, no delay is
slept, and retryWithBackoff surfaces the distinct chunk-too-large outcome
telling the caller to reduce the chunk size instead of the raw provider
error. -/
theorem c3_token_limit_no_retry (α : Type) (fn : Nat → Except ProviderError α)
    (e : ProviderError) (mR d : Nat) (hmr : 1 ≤ mR)
    (hfail : fn 0 = Except.error e)
    (htok : isTokenLimitErr e = true)
    (hrl : isRateLimitErr e = false) :
    (retryWithBackoff fn mR d).calls = 1 ∧
    (retryWithBackoff fn mR d).outcome = RetryOutcome.chunkTooLarge ∧
    (retryWithBackoff fn mR d).delays = [] ∧
    (∀ e2 : ProviderError, (retryWithBackoff fn mR d).outcome ≠ RetryOutcome.raised e2) := by
  obtain ⟨m, rfl⟩ : ∃ m, mR = m + 1 := ⟨mR - 1, by omega⟩
  have hrun : retryWithBackoff fn (m + 1) d = ⟨RetryOutcome.chunkTooLarge, 1, []⟩ := by
    simp [retryWithBackoff, retryStep, hfail, hrl, htok]
  refine ⟨by rw [hrun], by rw [hrun], by rw [hrun], ?_⟩
  intro e2
  rw [hrun]
  simp

/-- Claim C3, witness: a context-length error with status 400 at the default
maxRetries 5 is surfaced as the chunk-too-large outcome after exactly one
provider call. -/
theorem c3_witness :
    (retryWithBackoff (fun _ => Except.error
      (⟨some 400, some "invalid_request_error", none,
        some "This model has a maximum context length of 8192 tokens", none⟩ :
        ProviderError)) 5 1000 : RetryTrace Unit).calls = 1 ∧
    (retryWithBackoff (fun _ => Except.error
      (⟨some 400, some "invalid_request_error", none,
        some "This model has a maximum context length of 8192 tokens", none⟩ :
        ProviderError)) 5 1000 : RetryTrace Unit).outcome =
      RetryOutcome.chunkTooLarge := by
  have h := c3_token_limit_no_retry Unit
    (fun _ => Except.error
      (⟨some 400, some "invalid_request_error", none,
        some "This model has a maximum context length of 8192 tokens", none⟩ :
        ProviderError))
    ⟨some 400, some "invalid_request_error", none,
      some "This model has a maximum context length of 8192 tokens", none⟩
    5 1000 (by decide) rfl (by decide) (by decide)
  exact ⟨h.1, h.2.1⟩

theorem hasEmbeddings_append_cons (db rest : List EmbRow) (r : EmbRow) :
    hasEmbeddings (db ++ r :: rest) r.docId = true := by
  simp [hasEmbeddings]

/-! ### Claim C1: writes do not replace rows per (document, chunk index) -/
/-- Claim C1, counterexample. The claim states that writing the same
(documentId, chunkIndex) pair twice, the second time with different text,
replaces the existing row and never leaves two rows. The write path is a
plain insert and the schema has no unique constraint on the pair, so after
two writes of (d, 0) both rows are present. -/
theorem c1_counterexample :
    insertEmbRows (insertEmbRows [] [⟨"d", ['a'], 0, []⟩]) [⟨"d", ['b'], 0, []⟩] =
      [⟨"d", ['a'], 0, []⟩, ⟨"d", ['b'], 0, []⟩] ∧
    (insertEmbRows (insertEmbRows [] [⟨"d", ['a'], 0, []⟩]) [⟨"d", ['b'], 0, []⟩]).countP
      (fun r => r.docId == "d" && r.chunkIndex == 0) = 2 :=
  ⟨by decide, by decide⟩

/-- Claim C1, amended. Writing chunk-embedding rows is a plain insert: the
schema has no unique constraint on (documentId, chunkIndex) and the write
appends, so writing the same pair twice, the second time with different
text, retains both rows and replaces nothing; the count of rows for that
pair grows by two. Duplicate avoidance in the repository relies instead on
the whole-document hasEmbeddings guard of claim C6. -/
theorem c1_insert_appends (db : List EmbRow) (r1 r2 : EmbRow)
    (hdoc : r1.docId = r2.docId) (hidx : r1.chunkIndex = r2.chunkIndex) :
    insertEmbRows (insertEmbRows db [r1]) [r2] = db ++ [r1, r2] ∧
    (insertEmbRows (insertEmbRows db [r1]) [r2]).countP
        (fun r => r.docId == r1.docId && r.chunkIndex == r1.chunkIndex) =
      db.countP (fun r => r.docId == r1.docId && r.chunkIndex == r1.chunkIndex) + 2 := by
  constructor
  · simp [insertEmbRows]
  · have e1 : (r1.docId == r1.docId && r1.chunkIndex == r1.chunkIndex) = true := by simp
    have e2 : (r2.docId == r1.docId && r2.chunkIndex == r1.chunkIndex) = true := by
      simp [hdoc, hidx]
    simp [insertEmbRows, List.countP_append, List.countP_cons, e1, e2]

/-- Claim C1, witness: the amended theorem applied to two concrete rows for
document d and chunk index 0 with different texts. -/
theorem c1_witness :
    (⟨"d", ['a'], 0, []⟩ : EmbRow).docId = (⟨"d", ['b'], 0, []⟩ : EmbRow).docId ∧
    insertEmbRows (insertEmbRows [] [⟨"d", ['a'], 0, []⟩]) [⟨"d", ['b'], 0, []⟩] =
      [] ++ [⟨"d", ['a'], 0, []⟩, ⟨"d", ['b'], 0, []⟩] ∧
    (insertEmbRows (insertEmbRows [] [⟨"d", ['a'], 0, []⟩]) [⟨"d", ['b'], 0, []⟩]).countP
        (fun r => r.docId == "d" && r.chunkIndex == 0) =
      ([] : List EmbRow).countP (fun r => r.docId == "d" && r.chunkIndex == 0) + 2 := by
  have h := c1_insert_appends [] ⟨"d", ['a'], 0, []⟩ ⟨"d", ['b'], 0, []⟩ rfl rfl
  exact ⟨rfl, h.1, h.2⟩

/-! ### Claim C6: embedding generation is skipped when embeddings exist -/
theorem genEmail_skip (embed : List Char → List Rat) (db : List EmbRow)
    (docId : String) (s b : List Char) (h : hasEmbeddings db docId = true) :
    generateEmailEmbeddings embed db docId s b = db := by
  simp [generateEmailEmbeddings, h]

theorem genAtt_skip (embed : List Char → List Rat) (db : List EmbRow)
    (docId : String) (t : List Char) (h : hasEmbeddings db docId = true) :
    generateAttachmentEmbeddings embed db docId t = db := by
  simp [generateAttachmentEmbeddings, h]

/-- Claim C6. If embeddings already exist for a document, embedding
generation for that document is skipped entirely: generateEmailEmbeddings
and generateAttachmentEmbeddings return the store unchanged, writing no
rows. Consequently repeating the same generation run is idempotent and
produces no duplicate embedding rows for the document. -/
theorem c6_skip_when_embedded (embed : List Char → List Rat) (db : List EmbRow)
    (docId : String) (subject body text : List Char)
    (h : hasEmbeddings db docId = true) :
    generateEmailEmbeddings embed db docId subject body = db ∧
    generateAttachmentEmbeddings embed db docId text = db ∧
    (∀ (db2 : List EmbRow) (s2 b2 : List Char),
      generateEmailEmbeddings embed (generateEmailEmbeddings embed db2 docId s2 b2)
        docId s2 b2 = generateEmailEmbeddings embed db2 docId s2 b2) ∧
    (∀ (db2 : List EmbRow) (t2 : List Char),
      generateAttachmentEmbeddings embed (generateAttachmentEmbeddings embed db2 docId t2)
        docId t2 = generateAttachmentEmbeddings embed db2 docId t2) := by
  refine ⟨genEmail_skip embed db docId subject body h,
    genAtt_skip embed db docId text h, ?_, ?_⟩
  · intro db2 s2 b2
    by_cases h0 : (jsTrim (s2 ++ '\n' :: '\n' :: b2)).length = 0
    · simp [generateEmailEmbeddings, h0]
    · by_cases h1 : hasEmbeddings db2 docId
      · simp [generateEmailEmbeddings, h0, h1]
      · cases hch : validateChunks (chunkText (jsTrim (s2 ++ '\n' :: '\n' :: b2)) 5000 200) with
        | nil =>
          simp [generateEmailEmbeddings, h0, h1, hch, insertEmbRows, withIdx]
        | cons c cs =>
          have hrun : generateEmailEmbeddings embed db2 docId s2 b2 =
              db2 ++ (⟨docId, c, 0, embed c⟩ : EmbRow) ::
                (withIdx 1 cs).map (fun p => ⟨docId, p.2, p.1, embed p.2⟩) := by
            simp [generateEmailEmbeddings, h0, h1, hch, insertEmbRows, withIdx]
          have hhas : hasEmbeddings (generateEmailEmbeddings embed db2 docId s2 b2)
              docId = true := by
            rw [hrun]
            exact hasEmbeddings_append_cons db2 _ ⟨docId, c, 0, embed c⟩
          exact genEmail_skip embed _ docId s2 b2 hhas
  · intro db2 t2
    by_cases h0 : (t2.length = 0 || (jsTrim t2).length = 0) = true
    · simp only [generateAttachmentEmbeddings, if_pos h0]
    · by_cases h1 : hasEmbeddings db2 docId
      · simp only [generateAttachmentEmbeddings, if_neg h0, if_pos h1]
      · cases hch : validateChunks (chunkText t2 5000 200) with
        | nil =>
          simp only [generateAttachmentEmbeddings, if_neg h0, if_neg h1, hch]
          simp [insertEmbRows, withIdx, generateAttachmentEmbeddings, h0, h1, hch]
        | cons c cs =>
          have hrun : generateAttachmentEmbeddings embed db2 docId t2 =
              db2 ++ (⟨docId, c, 0, embed c⟩ : EmbRow) ::
                (withIdx 1 cs).map (fun p => ⟨docId, p.2, p.1, embed p.2⟩) := by
            simp only [generateAttachmentEmbeddings, if_neg h0, if_neg h1, hch]
            simp [insertEmbRows, withIdx]
          have hhas : hasEmbeddings (generateAttachmentEmbeddings embed db2 docId t2)
              docId = true := by
            rw [hrun]
            exact hasEmbeddings_append_cons db2 _ ⟨docId, c, 0, embed c⟩
          exact genAtt_skip embed _ docId t2 hhas

/-- Claim C6, witness: a store that already holds a row for document e1 is
returned unchanged by both generators, and repeating a generation run on an
initially empty store changes nothing. -/
theorem c6_witness :
    hasEmbeddings [⟨"e1", ['x'], 0, []⟩] "e1" = true ∧
    generateEmailEmbeddings (fun _ => []) [⟨"e1", ['x'], 0, []⟩] "e1"
      "Hi".data "Body".data = [⟨"e1", ['x'], 0, []⟩] ∧
    generateAttachmentEmbeddings (fun _ => []) [⟨"e1", ['x'], 0, []⟩] "e1"
      "Doc".data = [⟨"e1", ['x'], 0, []⟩] ∧
    generateEmailEmbeddings (fun _ => [])
      (generateEmailEmbeddings (fun _ => []) [] "e1" "Hi".data "Body".data)
      "e1" "Hi".data "Body".data =
        generateEmailEmbeddings (fun _ => []) [] "e1" "Hi".data "Body".data := by
  have h := c6_skip_when_embedded (fun _ => []) [⟨"e1", ['x'], 0, []⟩] "e1"
    "Hi".data "Body".data "Doc".data (by decide)
  exact ⟨by decide, h.1, h.2.1, h.2.2.1 [] "Hi".data "Body".data⟩

/-! ### Lemmas about the date-descending sort -/
theorem mem_insertByDateDesc (e x : DbEmail) (l : List DbEmail) :
    x ∈ insertByDateDesc e l ↔ x = e ∨ x ∈ l := by
  induction l with
  | nil => simp [insertByDateDesc]
  | cons y ys ih =>
    rw [insertByDateDesc]
    split
    · simp [List.mem_cons]
    · simp only [List.mem_cons, ih]
      tauto

theorem mem_sortByDateDesc (x : DbEmail) (l : List DbEmail) :
    x ∈ sortByDateDesc l ↔ x ∈ l := by
  induction l with
  | nil => simp [sortByDateDesc]
  | cons y ys ih =>
    rw [sortByDateDesc, mem_insertByDateDesc]
    simp [ih]

theorem pairwise_insertByDateDesc (e : DbEmail) (l : List DbEmail)
    (h : l.Pairwise (fun a b => b.dateMs ≤ a.dateMs)) :
    (insertByDateDesc e l).Pairwise (fun a b => b.dateMs ≤ a.dateMs) := by
  induction l with
  | nil => simp [insertByDateDesc]
  | cons y ys ih =>
    rcases List.pairwise_cons.1 h with ⟨hy, hys⟩
    rw [insertByDateDesc]
    split
    case isTrue hlt =>
      refine List.pairwise_cons.2 ⟨?_, h⟩
      intro z hz
      rcases List.mem_cons.1 hz with rfl | hz2
      · omega
      · have := hy z hz2
        omega
    case isFalse hge =>
      refine List.pairwise_cons.2 ⟨?_, ih hys⟩
      intro z hz
      rcases (mem_insertByDateDesc e z ys).1 hz with rfl | hz2
      · omega
      · exact hy z hz2

theorem pairwise_sortByDateDesc (l : List DbEmail) :
    (sortByDateDesc l).Pairwise (fun a b => b.dateMs ≤ a.dateMs) := by
  induction l with
  | nil => simp [sortByDateDesc]
  | cons y ys ih => exact pairwise_insertByDateDesc y _ ih

theorem head_sortByDateDesc_max (l : List DbEmail) (x : DbEmail)
    (hx : (sortByDateDesc l).head? = some x) :
    ∀ e ∈ l, e.dateMs ≤ x.dateMs := by
  intro e he
  have hmem : e ∈ sortByDateDesc l := (mem_sortByDateDesc e l).2 he
  have hp := pairwise_sortByDateDesc l
  cases hsl : sortByDateDesc l with
  | nil => rw [hsl] at hmem; simp at hmem
  | cons a rest =>
    rw [hsl] at hx hmem hp
    simp at hx
    subst hx
    rcases List.mem_cons.1 hmem with rfl | hr
    · exact le_refl _
    · exact (List.pairwise_cons.1 hp).1 e hr

theorem headTake (n : Nat) (l : List DbEmail) (hn : 1 ≤ n) :
    (l.take n).head? = l.head? := by
  cases l with
  | nil => simp
  | cons a rest =>
    cases n with
    | zero => omega
    | succ m => simp

/-! ### Claim C7: recall-then-recency ranking -/
/-- Claim C7. For a retrieval result of two documents: when their best-chunk
similarities differ by less than the epsilon 0.1, the ranking places the
more recent document first regardless of similarity and of input order;
when the similarities differ by 0.1 or more, the ranking places the higher
similarity first regardless of timestamps and of input order. -/
theorem c7_rank_epsilon_recency (a b : SelectedEmail) :
    (|a.maxSimilarity - b.maxSimilarity| < 1/10 → b.email.dateMs < a.email.dateMs →
      sortTwoEmails a b = [a, b] ∧ sortTwoEmails b a = [a, b]) ∧
    (1/10 ≤ |a.maxSimilarity - b.maxSimilarity| → b.maxSimilarity < a.maxSimilarity →
      sortTwoEmails a b = [a, b] ∧ sortTwoEmails b a = [a, b]) := by
  constructor
  · intro h1 h2
    have hc1 : ¬ 0 < emailCmp a b := by
      rw [emailCmp, if_pos h1]
      simp only [not_lt]
      exact_mod_cast (by omega : (b.email.dateMs - a.email.dateMs : Int) ≤ 0)
    have hc2 : 0 < emailCmp b a := by
      rw [emailCmp, if_pos (by rw [abs_sub_comm]; exact h1)]
      exact_mod_cast (by omega : (0 : Int) < a.email.dateMs - b.email.dateMs)
    exact ⟨by rw [sortTwoEmails, if_neg hc1], by rw [sortTwoEmails, if_pos hc2]⟩
  · intro h1 h2
    have hc1 : ¬ 0 < emailCmp a b := by
      rw [emailCmp, if_neg (not_lt.2 h1)]
      simp only [not_lt, sub_nonpos]
      exact le_of_lt h2
    have hc2 : 0 < emailCmp b a := by
      rw [emailCmp, if_neg (by rw [abs_sub_comm]; exact not_lt.2 h1)]
      exact sub_pos.2 h2
    exact ⟨by rw [sortTwoEmails, if_neg hc1], by rw [sortTwoEmails, if_pos hc2]⟩

/-- Claim C7, witness: with similarities 0.77 and 0.81 (difference below
0.1) the more recent document wins from either input order; with
similarities 0.9 and 0.5 (difference at least 0.1) the higher similarity
wins from either input order. -/
theorem c7_witness :
    (|(77/100 : Rat) - 81/100| < 1/10 ∧ (100 : Int) < 200 ∧
      sortTwoEmails ⟨⟨"A", "g", 200⟩, [], 77/100⟩ ⟨⟨"B", "g", 100⟩, [], 81/100⟩ =
        [⟨⟨"A", "g", 200⟩, [], 77/100⟩, ⟨⟨"B", "g", 100⟩, [], 81/100⟩] ∧
      sortTwoEmails ⟨⟨"B", "g", 100⟩, [], 81/100⟩ ⟨⟨"A", "g", 200⟩, [], 77/100⟩ =
        [⟨⟨"A", "g", 200⟩, [], 77/100⟩, ⟨⟨"B", "g", 100⟩, [], 81/100⟩]) ∧
    ((1/10 : Rat) ≤ |(9/10 : Rat) - 5/10| ∧ (5/10 : Rat) < 9/10 ∧
      sortTwoEmails ⟨⟨"C", "g", 100⟩, [], 9/10⟩ ⟨⟨"D", "g", 200⟩, [], 5/10⟩ =
        [⟨⟨"C", "g", 100⟩, [], 9/10⟩, ⟨⟨"D", "g", 200⟩, [], 5/10⟩] ∧
      sortTwoEmails ⟨⟨"D", "g", 200⟩, [], 5/10⟩ ⟨⟨"C", "g", 100⟩, [], 9/10⟩ =
        [⟨⟨"C", "g", 100⟩, [], 9/10⟩, ⟨⟨"D", "g", 200⟩, [], 5/10⟩]) := by
  have h1 := (c7_rank_epsilon_recency ⟨⟨"A", "g", 200⟩, [], 77/100⟩
    ⟨⟨"B", "g", 100⟩, [], 81/100⟩).1 (by rw [abs_sub_lt_iff]; norm_num) (by norm_num)
  have h2 := (c7_rank_epsilon_recency ⟨⟨"C", "g", 100⟩, [], 9/10⟩
    ⟨⟨"D", "g", 200⟩, [], 5/10⟩).2 (by rw [le_abs]; norm_num) (by norm_num)
  exact ⟨⟨by rw [abs_sub_lt_iff]; norm_num, by norm_num, h1.1, h1.2⟩,
    ⟨by rw [le_abs]; norm_num, by norm_num, h2.1, h2.2⟩⟩

/-! ### Claim C8: the recency override -/
theorem selectEmails_fst (db : List DbEmail) (t g : String) (ms : List EmailMatch) :
    (selectEmails db t g ms).1 =
      ((dedupFirst (ms.map (fun m => m.emailId))).length == 0 ||
        (isTimeBasedQuery t && decide ((dedupFirst (ms.map (fun m => m.emailId))).length < 3))) := by
  unfold selectEmails
  dsimp only
  split <;> simp_all

theorem dedupFirst_map_eq_nil_iff (ms : List EmailMatch) :
    dedupFirst (ms.map (fun m => m.emailId)) = [] ↔ ms = [] := by
  cases ms with
  | nil => simp [dedupFirst, dedupFirstAux]
  | cons m rest => simp [dedupFirst, dedupFirstAux]

/-- Claim C8, counterexample. The claim states that a query containing a
recency keyword bypasses similarity ranking and fetches the most recent
documents by timestamp. This is false when the query is time-based but
semantic search matched three or more distinct emails: the source takes the
recent-emails branch only when there are no matches at all, or the query is
time-based and fewer than three distinct emails matched. Here the query
contains the keyword latest, three emails match, and the selection keeps
the three matched emails with their chunk similarities; the most recent
document of the grant is absent and no synthetic score is assigned. -/
theorem c8_counterexample :
    isTimeBasedQuery "read the latest email" = true ∧
    (selectEmails [⟨"A", "g", 1⟩, ⟨"B", "g", 2⟩, ⟨"C", "g", 3⟩, ⟨"R", "g", 100⟩]
      "read the latest email" "g" [⟨"A", 9⟩, ⟨"B", 8⟩, ⟨"C", 7⟩]).1 = false ∧
    ((selectEmails [⟨"A", "g", 1⟩, ⟨"B", "g", 2⟩, ⟨"C", "g", 3⟩, ⟨"R", "g", 100⟩]
      "read the latest email" "g" [⟨"A", 9⟩, ⟨"B", 8⟩, ⟨"C", 7⟩]).2).map
        (fun se => se.email.id) = ["A", "B", "C"] ∧
    (∀ se ∈ (selectEmails [⟨"A", "g", 1⟩, ⟨"B", "g", 2⟩, ⟨"C", "g", 3⟩, ⟨"R", "g", 100⟩]
      "read the latest email" "g" [⟨"A", 9⟩, ⟨"B", 8⟩, ⟨"C", 7⟩]).2,
        se.email.id ≠ "R") := by
  refine ⟨by decide, by decide, by decide, by decide⟩

/-- Claim C8, amended. The recent-emails branch is taken exactly when
semantic search returned no email matches, or the query contains a recency
keyword and fewer than three distinct emails matched. With zero semantic
matches the selection fetches the most recent emails of the grant by
timestamp (five for a recency query, three otherwise), each carrying no
matching chunks and the synthetic similarity 0.9 for a recency query and
0.8 otherwise; in particular when the store holds at least one email for
the grant the result is nonempty and its first element is a most recent
email of the grant, so a query containing latest email with zero matches
returns the most recent document rather than an empty result. -/
theorem c8_recency_override_amended (db : List DbEmail) (t g : String)
    (ms : List EmailMatch) :
    ((selectEmails db t g ms).1 = true ↔
      (ms = [] ∨ (isTimeBasedQuery t = true ∧
        (dedupFirst (ms.map (fun m => m.emailId))).length < 3))) ∧
    (ms = [] → selectEmails db t g ms =
      (true, ((sortByDateDesc (db.filter (fun e => e.grantId == g))).take
        (if isTimeBasedQuery t then 5 else 3)).map
          (fun e => ⟨e, [], if isTimeBasedQuery t then 9/10 else 8/10⟩))) ∧
    (ms = [] → ∀ se ∈ (selectEmails db t g ms).2,
      se.matchingChunks = [] ∧
      se.maxSimilarity = (if isTimeBasedQuery t then (9 : Rat)/10 else 8/10)) ∧
    (ms = [] → ∀ e0 ∈ db, e0.grantId = g → (selectEmails db t g ms).2 ≠ []) ∧
    (ms = [] → ∀ se, ((selectEmails db t g ms).2).head? = some se →
      ∀ e ∈ db, e.grantId = g → e.dateMs ≤ se.email.dateMs) := by
  have htake1 : 1 ≤ (if isTimeBasedQuery t then 5 else 3) := by split <;> omega
  refine ⟨?_, ?_, ?_, ?_, ?_⟩
  · rw [selectEmails_fst]
    simp only [Bool.or_eq_true, beq_iff_eq, Bool.and_eq_true, decide_eq_true_eq,
      List.length_eq_zero]
    rw [dedupFirst_map_eq_nil_iff]
  · intro hms
    subst hms
    rfl
  · intro hms se hse
    subst hms
    have h2 : selectEmails db t g [] =
        (true, ((sortByDateDesc (db.filter (fun e => e.grantId == g))).take
          (if isTimeBasedQuery t then 5 else 3)).map
            (fun e => ⟨e, [], if isTimeBasedQuery t then 9/10 else 8/10⟩)) := rfl
    rw [h2] at hse
    simp only [List.mem_map] at hse
    obtain ⟨e, _, he⟩ := hse
    rw [← he]
    exact ⟨rfl, rfl⟩
  · intro hms e0 he0 hg0
    subst hms
    have h2 : (selectEmails db t g []).2 =
        ((sortByDateDesc (db.filter (fun e => e.grantId == g))).take
          (if isTimeBasedQuery t then 5 else 3)).map
            (fun e => ⟨e, [], if isTimeBasedQuery t then 9/10 else 8/10⟩) := rfl
    rw [h2]
    have hmem : e0 ∈ db.filter (fun e => e.grantId == g) :=
      List.mem_filter.2 ⟨he0, by simp [hg0]⟩
    cases hsl : sortByDateDesc (db.filter (fun e => e.grantId == g)) with
    | nil =>
      have := (mem_sortByDateDesc e0 _).2 hmem
      rw [hsl] at this
      simp at this
    | cons a rest =>
      cases hn : (if isTimeBasedQuery t then 5 else 3) with
      | zero => omega
      | succ n => simp
  · intro hms se hse e he hg
    subst hms
    have h2 : (selectEmails db t g []).2 =
        ((sortByDateDesc (db.filter (fun e => e.grantId == g))).take
          (if isTimeBasedQuery t then 5 else 3)).map
            (fun e => ⟨e, [], if isTimeBasedQuery t then 9/10 else 8/10⟩) := rfl
    rw [h2, List.head?_map, headTake _ _ htake1] at hse
    obtain ⟨a, ha, hfa⟩ := Option.map_eq_some'.1 hse
    have hd := head_sortByDateDesc_max _ a ha e (List.mem_filter.2 ⟨he, by simp [hg]⟩)
    rw [← hfa]
    exact hd

/-- Claim C8, witness: a transcript containing latest email with zero
semantic matches over a two-email store returns the recent-emails branch
with the most recent email first and the synthetic similarity 0.9. -/
theorem c8_witness :
    (selectEmails [⟨"old", "g", 100⟩, ⟨"new", "g", 200⟩] "latest email" "g" []).1 = true ∧
    selectEmails [⟨"old", "g", 100⟩, ⟨"new", "g", 200⟩] "latest email" "g" [] =
      (true, ((sortByDateDesc ([⟨"old", "g", 100⟩, ⟨"new", "g", 200⟩].filter
        (fun e => e.grantId == "g"))).take
          (if isTimeBasedQuery "latest email" then 5 else 3)).map
            (fun e => ⟨e, [], if isTimeBasedQuery "latest email" then 9/10 else 8/10⟩)) ∧
    (selectEmails [⟨"old", "g", 100⟩, ⟨"new", "g", 200⟩] "latest email" "g" []).2 ≠ [] ∧
    (∀ se, ((selectEmails [⟨"old", "g", 100⟩, ⟨"new", "g", 200⟩]
        "latest email" "g" []).2).head? = some se →
      ∀ e ∈ ([⟨"old", "g", 100⟩, ⟨"new", "g", 200⟩] : List DbEmail), e.grantId = "g" →
        e.dateMs ≤ se.email.dateMs) := by
  have h := c8_recency_override_amended [⟨"old", "g", 100⟩, ⟨"new", "g", 200⟩]
    "latest email" "g" []
  exact ⟨h.1.2 (Or.inl rfl), h.2.1 rfl,
    h.2.2.2.1 rfl ⟨"new", "g", 200⟩ (by decide) rfl, h.2.2.2.2 rfl⟩

theorem batchesOfAux_flatten {α : Type} :
    ∀ (fuel c : Nat) (l : List α), l.length ≤ fuel →
      (batchesOfAux fuel c l).flatten = l := by
  intro fuel
  induction fuel with
  | zero =>
    intro c l h
    cases l with
    | nil => rfl
    | cons x xs => simp at h
  | succ n ih =>
    intro c l h
    cases l with
    | nil => rfl
    | cons x xs =>
      rw [batchesOfAux]
      have hlen : (xs.drop (c - 1)).length ≤ n := by
        simp only [List.length_drop]
        simp only [List.length_cons] at h
        omega
      simp only [List.flatten_cons, ih c _ hlen, List.cons_append]
      rw [List.take_append_drop]

theorem processInParallel_ok {α β : Type} (items : List α) (f : α → β) (c : Nat) :
    processInParallel items (fun a => Except.ok (f a)) c = items.map f := by
  unfold processInParallel
  have h1 : ∀ b : List α,
      b.filterMap (fun it => (Except.ok (f it) : Except Unit β).toOption) = b.map f := by
    intro b
    induction b with
    | nil => rfl
    | cons x xs ih => simp_all [Except.toOption]
  simp only [h1]
  rw [← List.map_flatten]
  rw [batchesOf, batchesOfAux_flatten _ _ _ (le_refl _)]

theorem filterMap_ite {α β : Type} (p : α → Bool) (h : α → β) (l : List α) :
    l.filterMap (fun a => if p a then some (h a) else none) = (l.filter p).map h := by
  induction l with
  | nil => rfl
  | cons x xs ih =>
    by_cases hp : p x <;> simp [hp, ih]

/-! ### Claim C9: item-level failures are isolated -/
/-- Claim C9. Per-message and per-attachment failures during an ingestion
run are isolated: for every list of messages with arbitrary per-item
collaborator outcomes, the job ends completed with no job-level error, the
success count is the number of messages whose upsert succeeded, and the
stored attachments are exactly the attachments whose download succeeded
within those messages, each failing item being skipped without aborting the
batch or the job. In particular, ingesting three messages where the second
message has a failing attachment download ends the job completed with
savedCount 3 and the failing attachment absent from the stored
attachments. -/
theorem c9_partial_failure_isolation :
    (∀ messages : List MMessage,
      (runCrawl messages).jobStatus = "completed" ∧
      (runCrawl messages).errorMessage = none ∧
      (runCrawl messages).savedCount = (messages.filter (fun m => m.dbOk)).length ∧
      (runCrawl messages).storedAttachmentIds =
        ((messages.filter (fun m => m.dbOk)).map
          (fun m => (m.atts.filter (fun a => a.downloadOk)).map
            (fun a => a.attId))).flatten) ∧
    runCrawl
      [⟨"m1", true, [⟨"a1", true⟩]⟩,
       ⟨"m2", true, [⟨"a2", false⟩]⟩,
       ⟨"m3", true, []⟩] =
      ⟨3, "completed", none, ["a1"]⟩ := by
  constructor
  · intro messages
    have hmsg : processMessage = fun m =>
        Except.ok (if m.dbOk then
          some (m.msgId, (processInParallel m.atts processAttachment 5).filterMap id)
        else none) := by
      funext m
      rw [processMessage]
      split <;> simp_all
    have hrun : processInParallel messages processMessage 10 =
        messages.map (fun m => if m.dbOk then
          some (m.msgId, (processInParallel m.atts processAttachment 5).filterMap id)
        else none) := by
      rw [hmsg, processInParallel_ok]
    have hatt : ∀ m : MMessage,
        (processInParallel m.atts processAttachment 5).filterMap id =
          (m.atts.filter (fun a => a.downloadOk)).map (fun a => a.attId) := by
      intro m
      have : processInParallel m.atts processAttachment 5 =
          m.atts.map (fun a => if a.downloadOk then some a.attId else none) := by
        exact processInParallel_ok m.atts
          (fun a => if a.downloadOk then some a.attId else none) 5
      rw [this, List.filterMap_map]
      simpa using filterMap_ite (fun a : MAttachment => a.downloadOk)
        (fun a => a.attId) m.atts
    have hfm : (processInParallel messages processMessage 10).filterMap id =
        (messages.filter (fun m => m.dbOk)).map
          (fun m => (m.msgId,
            (processInParallel m.atts processAttachment 5).filterMap id)) := by
      rw [hrun, List.filterMap_map]
      simpa using filterMap_ite (fun m : MMessage => m.dbOk)
        (fun m => (m.msgId,
          (processInParallel m.atts processAttachment 5).filterMap id)) messages
    refine ⟨rfl, rfl, ?_, ?_⟩
    · show ((processInParallel messages processMessage 10).filterMap id).length = _
      rw [hfm, List.length_map]
    · show (((processInParallel messages processMessage 10).filterMap id).map
        (fun e => e.2)).flatten = _
      rw [hfm, List.map_map]
      congr 1
      apply List.map_congr_left
      intro m _
      exact hatt m
  · decide

end VoiceAgent
